import Mathlib

/-!
Verification development for the `dash_share` repository.

The development embeds the Python modules `dash_share/share.py` (layout-tree
rewriting, state hashing, query-string parsing, the file persistence strategy
and the lock/timer callbacks) as executable Lean definitions over a model of
Python JSON-like values, and proves the behavioural properties stated about
them.

Python values that can occur in a Dash layout are modelled by `PyVal`:
`None`, strings, ints, bools, lists and (insertion-ordered, unique-key)
dicts.  Python dicts are represented as association lists; all dict
operations below preserve insertion order and assume the unique-key
invariant that real Python dicts guarantee.  Dynamic failures of the Python
code (KeyError, TypeError/AttributeError, and the explicit
`ValueError("Not Expected App Structure")`) are modelled by `Except UErr`.
-/

inductive PyVal where
  | vnull : PyVal
  | vstr (s : String) : PyVal
  | vint (n : Int) : PyVal
  | vbool (b : Bool) : PyVal
  | vlist (xs : List PyVal) : PyVal
  | vdict (d : List (String × PyVal)) : PyVal

/-- A `**kwargs` patch set: component id keys mapped to prop dicts. -/
abbrev PatchSet := List (String × List (String × PyVal))

/-- Python `d[k]` / `d.get(k)` on an insertion-ordered dict. -/
def dictGet (d : List (String × PyVal)) (k : String) : Option PyVal :=
  match d.find? (fun p => p.1 == k) with
  | some p => some p.2
  | none => none

/-- Python `k in d` for a dict. -/
def hasKeyF (d : List (String × PyVal)) (k : String) : Bool :=
  d.any (fun p => p.1 == k)

/-- Python `d[k] = v`: replace in place if the key exists (keeping its
position), otherwise append at the end. -/
def dictSet (d : List (String × PyVal)) (k : String) (v : PyVal) :
    List (String × PyVal) :=
  if hasKeyF d k then d.map (fun p => if p.1 == k then (k, v) else p)
  else d ++ [(k, v)]

/-- Python `d.update(p)`: fold `dictSet` over the patch entries. -/
def dictUpdate (d : List (String × PyVal)) (p : List (String × PyVal)) :
    List (String × PyVal) :=
  p.foldl (fun acc kv => dictSet acc kv.1 kv.2) d

/-- Dynamic errors of the Python code: `malformed` is the explicit
`ValueError("Not Expected App Structure")`; `keyError` a dict subscript
miss; `typeError` any TypeError/AttributeError from operating on a value
of the wrong dynamic type. -/
inductive UErr where
  | malformed : UErr
  | keyError : UErr
  | typeError : UErr
deriving DecidableEq

/-- Python truthiness of a modelled value. -/
def truthy : PyVal → Bool
  | .vnull => false
  | .vstr s => !(s == "")
  | .vint n => !(n == 0)
  | .vbool b => b
  | .vlist xs => !xs.isEmpty
  | .vdict d => !d.isEmpty

/-- `id.replace("-", "_")` from `share.py` (single-character replacement,
hence a character map). -/
def normalizeId (s : String) : String :=
  String.mk (s.data.map (fun c => if c == '-' then '_' else c))

/-- Character-list helper: does the second list start with the first? -/
def chStarts : List Char → List Char → Bool
  | [], _ => true
  | _ :: _, [] => false
  | a :: as, b :: bs => a == b && chStarts as bs

/-- Character-list helper: does the list contain `needle` as a contiguous
run (Python `needle in s` for strings)? -/
def chContains (needle : List Char) : List Char → Bool
  | [] => needle.isEmpty
  | c :: rest => chStarts needle (c :: rest) || chContains needle rest

/-- Python substring test `needle in s`. -/
def strContains (s : String) (needle : String) : Bool :=
  chContains needle.data s.data

/-- Python's polymorphic `needle in v` for a string needle: substring test
on strings, key membership on dicts, element membership on lists, and a
TypeError on anything else. -/
def pyIn (needle : String) : PyVal → Except UErr Bool
  | .vstr s => .ok (strContains s needle)
  | .vdict d => .ok (hasKeyF d needle)
  | .vlist xs => .ok (xs.any (fun x =>
      match x with
      | .vstr t => t == needle
      | _ => false))
  | _ => .error .typeError

/-- `kwargs` lookup: the patch stored under a normalized id, if any. -/
def patchFor (ps : PatchSet) (nid : String) :
    Option (List (String × PyVal)) :=
  match ps.find? (fun q => q.1 == nid) with
  | some q => some q.2
  | none => none

/-- Lines 84-92 of `share.py`: `id = props.get("id", "")`,
`id = id.replace("-", "_")`, and `props.update(kwargs[id])` when the
normalized id is a kwargs key.  A non-string id raises (AttributeError on
`.replace`). -/
def idMergeFields (ps : PatchSet) (pd : List (String × PyVal)) :
    Except UErr (List (String × PyVal)) := do
  let idStr ←
    match dictGet pd "id" with
    | some (.vstr s) => Except.ok s
    | some _ => Except.error UErr.typeError
    | none => Except.ok ""
  match patchFor ps (normalizeId idStr) with
  | some p => Except.ok (dictUpdate pd p)
  | none => Except.ok pd

/-!
The recursive core of `update_component_state` (`share.py`, lines 43-94),
split into mutually recursive traversals so that the recursion is
structural.  Sequential in-place updates of distinct dict keys
(`layout["children"] = ...` then `layout["props"] = ...`) are rendered as a
single pass over the entries, which is equivalent because Python dict keys
are unique.  Each function is called only with a non-empty patch set, since
the top-level wrapper returns early on an empty one.
-/

mutual

/-- Dispatch of `update_component_state` on the non-empty-kwargs path:
the dict branch (lines 49-61), the str/None early return (lines 63-64),
and the list iteration (lines 66-94).  Iterating any other value
(int/bool) is a Python TypeError. -/
def updVal (ps : PatchSet) : PyVal → Except UErr PyVal
  | .vdict d => do
      let d1 ← updDictEntries ps d
      match dictGet d1 "id" with
      | some (.vstr s) =>
          match patchFor ps (normalizeId s) with
          | some p => Except.ok (.vdict (dictUpdate d1 p))
          | none => Except.ok (.vdict d1)
      | some _ => Except.error UErr.typeError
      | none => Except.ok (.vdict d1)
  | .vstr s => Except.ok (.vstr s)
  | .vnull => Except.ok .vnull
  | .vlist xs => do
      let ys ← updList ps xs
      Except.ok (.vlist ys)
  | .vint _ => Except.error UErr.typeError
  | .vbool _ => Except.error UErr.typeError

/-- Dict branch, lines 50-55: recurse into the values stored under the
`children` and the `props` keys, in one entry pass. -/
def updDictEntries (ps : PatchSet) :
    List (String × PyVal) → Except UErr (List (String × PyVal))
  | [] => Except.ok []
  | (k, v) :: rest =>
      if k == "children" || k == "props" then do
        let v' ← updVal ps v
        let rest' ← updDictEntries ps rest
        Except.ok ((k, v') :: rest')
      else do
        let rest' ← updDictEntries ps rest
        Except.ok ((k, v) :: rest')

/-- List branch, lines 66-94: process the items in order, collecting them
into the `updated` output list. -/
def updList (ps : PatchSet) : List PyVal → Except UErr (List PyVal)
  | [] => Except.ok []
  | item :: rest => do
      let item' ← updItem ps item
      let rest' ← updList ps rest
      Except.ok (item' :: rest')

/-- One list item: `props = item["props"]` (KeyError when missing,
TypeError when the item is not a dict), then the per-item body. -/
def updItem (ps : PatchSet) : PyVal → Except UErr PyVal
  | .vdict ifields =>
      if hasKeyF ifields "props" then do
        let ifields' ← updItemFields ps ifields
        Except.ok (.vdict ifields')
      else Except.error UErr.keyError
  | _ => Except.error UErr.typeError

/-- Rewrites the item's `props` entry in place. -/
def updItemFields (ps : PatchSet) :
    List (String × PyVal) → Except UErr (List (String × PyVal))
  | [] => Except.ok []
  | (k, v) :: rest =>
      if k == "props" then do
        let v' ← updPropsVal ps v
        let rest' ← updItemFields ps rest
        Except.ok ((k, v') :: rest')
      else do
        let rest' ← updItemFields ps rest
        Except.ok ((k, v) :: rest')

/-- The per-item body applied to the value of the `props` key: children
handling (lines 68-82) followed by the id lookup and merge (lines 84-91).
A non-dict `props` value is a TypeError (`.get` on a non-dict). -/
def updPropsVal (ps : PatchSet) : PyVal → Except UErr PyVal
  | .vdict pd => do
      let pd1 ← updPropsFields ps pd
      let pd2 ← idMergeFields ps pd1
      Except.ok (PyVal.vdict pd2)
  | _ => Except.error UErr.typeError

/-- `children = props.get("children", None)` and the two subsequent
`if children and isinstance(children, ...)` statements, as a rewrite of the
`children` entry of the props dict. -/
def updPropsFields (ps : PatchSet) :
    List (String × PyVal) → Except UErr (List (String × PyVal))
  | [] => Except.ok []
  | (k, v) :: rest =>
      if k == "children" then do
        let v' ← updChildrenVal ps v
        let rest' ← updPropsFields ps rest
        Except.ok ((k, v') :: rest')
      else do
        let rest' ← updPropsFields ps rest
        Except.ok ((k, v) :: rest')

/-- Lines 69-82: a truthy dict-shaped `children` is rewritten through one
of the two recognized sub-shapes (`children` visible under its `props`
value, or `props` key present, versus a direct `children` key), any other
truthy dict shape raises `ValueError("Not Expected App Structure")`; a
truthy list-shaped `children` is rewritten as a sequence; anything else is
left alone. -/
def updChildrenVal (ps : PatchSet) : PyVal → Except UErr PyVal
  | .vdict cd =>
      if cd.isEmpty then Except.ok (.vdict cd)
      else do
        let c1 ← pyIn "children"
          (match dictGet cd "props" with
           | some pv => pv
           | none => .vstr "")
        if c1 || hasKeyF cd "props" then do
          let cd' ← updTargetFields ps "props" cd
          Except.ok (.vdict cd')
        else if hasKeyF cd "children" then do
          let cd' ← updTargetFields ps "children" cd
          Except.ok (.vdict cd')
        else Except.error UErr.malformed
  | .vlist cs =>
      if cs.isEmpty then Except.ok (.vlist cs)
      else do
        let cs' ← updList ps cs
        Except.ok (.vlist cs')
  | v => Except.ok v

/-- `children[target] = update_component_state(children[target], None, **kwargs)`
rendered as a rewrite of the `target` entry. -/
def updTargetFields (ps : PatchSet) (target : String) :
    List (String × PyVal) → Except UErr (List (String × PyVal))
  | [] => Except.ok []
  | (k, v) :: rest =>
      if k == target then do
        let v' ← updVal ps v
        let rest' ← updTargetFields ps target rest
        Except.ok ((k, v') :: rest')
      else do
        let rest' ← updTargetFields ps target rest
        Except.ok ((k, v) :: rest')

end

/-- `update_component_state(layout, None, **kwargs)` from `share.py`:
the empty-kwargs identity fast path (lines 43-44) followed by the
recursive body. -/
def update_component_state (layout : PyVal) (ps : PatchSet) :
    Except UErr PyVal :=
  if ps.isEmpty then Except.ok layout
  else updVal ps layout

/-!  No-match predicates: no dict reachable anywhere inside the value
carries an `id` entry whose normalized string value is a key of the patch
set.  Used to state patch isolation. -/

/-- The entry `(k, v)` is not a string-valued `id` entry whose normalized
value is a patch key. -/
def idOk (ps : PatchSet) (k : String) (v : PyVal) : Bool :=
  if k == "id" then
    match v with
    | .vstr s => (patchFor ps (normalizeId s)).isNone
    | _ => true
  else true

mutual

/-- No reachable `id` of `v` is matched by `ps`. -/
def nmVal (ps : PatchSet) : PyVal → Bool
  | .vdict d => nmFields ps d
  | .vlist xs => nmList ps xs
  | _ => true

/-- No reachable `id` of any entry value is matched by `ps`, and no
string-valued `id` entry of this dict itself normalizes to a patch key. -/
def nmFields (ps : PatchSet) : List (String × PyVal) → Bool
  | [] => true
  | (k, v) :: rest => idOk ps k v && nmVal ps v && nmFields ps rest

/-- No reachable `id` of any element is matched by `ps`. -/
def nmList (ps : PatchSet) : List PyVal → Bool
  | [] => true
  | v :: rest => nmVal ps v && nmList ps rest

end

/-- The `props` value of the first element of a layout sequence
(observer used to state counterexamples). -/
def firstItemProps : PyVal → Option PyVal
  | .vlist (.vdict f :: _) => dictGet f "props"
  | _ => none

/-! ### Query-string parsing (`DashShare.parse_query_string`)

Models `urllib.parse.parse_qs` with its default arguments (standard
library, outside this repository): fields split on `&`, fields without a
`=` or with an empty value dropped, names and values decoded by
`unquote_plus` (`+` to space, then percent-decoding, malformed escapes
kept literally), and values of repeated keys accumulated in order. -/

/-- Value of a hex digit character, by code point: `0`-`9` are 48-57,
`a`-`f` are 97-102, `A`-`F` are 65-70. -/
def hexDigitVal (c : Char) : Option Nat :=
  let n := c.toNat
  if 48 ≤ n ∧ n ≤ 57 then some (n - 48)
  else if 97 ≤ n ∧ n ≤ 102 then some (n - 87)
  else if 65 ≤ n ∧ n ≤ 70 then some (n - 55)
  else none

/-- Percent-decoding; a `%` not followed by two hex digits stays literal. -/
def pctDecode : List Char → List Char
  | [] => []
  | '%' :: a :: b :: rest =>
      match hexDigitVal a, hexDigitVal b with
      | some x, some y => Char.ofNat (16 * x + y) :: pctDecode rest
      | _, _ => '%' :: pctDecode (a :: b :: rest)
  | c :: rest => c :: pctDecode rest

/-- `urllib.parse.unquote_plus` on the character level. -/
def unquotePlusChars (cs : List Char) : String :=
  String.mk (pctDecode (cs.map (fun c => if c == '+' then ' ' else c)))

/-- Python `str.split(sep)` for a single-character separator. -/
def splitOnChar (sep : Char) : List Char → List (List Char)
  | [] => [[]]
  | c :: rest =>
      let r := splitOnChar sep rest
      if c == sep then [] :: r
      else
        match r with
        | [] => [[c]]
        | g :: gs => (c :: g) :: gs

/-- Python `s.split("=", 1)`: the text before and after the first `=`,
or `none` when there is no `=`. -/
def splitFirstEq : List Char → Option (List Char × List Char)
  | [] => none
  | c :: rest =>
      if c == '=' then some ([], rest)
      else
        match splitFirstEq rest with
        | some (a, b) => some (c :: a, b)
        | none => none

/-- One `name=value` field of a query string; empty fields, fields without
`=` and fields with an empty value yield nothing (the
`keep_blank_values=False` default). -/
def parsePairChars (cs : List Char) : Option (String × String) :=
  if cs.isEmpty then none
  else
    match splitFirstEq cs with
    | none => none
    | some (n, v) =>
        if v.isEmpty then none
        else some (unquotePlusChars n, unquotePlusChars v)

/-- `urllib.parse.parse_qsl(qs)` with default arguments. -/
def parse_qsl (s : String) : List (String × String) :=
  (splitOnChar '&' s.data).filterMap parsePairChars

/-- Grouping pass of `parse_qs`: first-occurrence key order, all values of
each key collected in order; `seen` holds the keys already emitted. -/
def groupPairsAux (seen : List String) :
    List (String × String) → List (String × List String)
  | [] => []
  | (k, v) :: rest =>
      if seen.any (fun x => x == k) then groupPairsAux seen rest
      else
        (k, v :: (rest.filter (fun p => p.1 == k)).map Prod.snd) ::
          groupPairsAux (k :: seen) rest

/-- `urllib.parse.parse_qs(qs)` with default arguments. -/
def parse_qs (s : String) : List (String × List String) :=
  groupPairsAux [] (parse_qsl s)

/-- First-match lookup in a string association list (Python dict read). -/
def lookupStr (l : List (String × String)) (k : String) : Option String :=
  match l.find? (fun p => p.1 == k) with
  | some p => some p.2
  | none => none

/-- `qs.replace("?", "")`: every `?` anywhere in the string is removed. -/
def removeQuestionMarks (s : String) : String :=
  String.mk (s.data.filter (fun c => !(c == '?')))

namespace DashShare

/-- `DashShare.parse_query_string` (`share.py`, lines 357-370): strip every
`?`, run `parse_qs`, and keep only `value[0]` of each key. -/
def parse_query_string (qs : String) : List (String × String) :=
  (parse_qs (removeQuestionMarks qs)).map (fun p => (p.1, p.2.headD ""))

end DashShare

/-! ### State codec (`DashShare.encode`)

`json.dumps(state)` is modelled per the Python default separators
(`", "` and `": "`, no key sorting, insertion order kept); string escaping
covers the quote, backslash and the common control characters, which is
all the development relies on.  `hashlib.shake_128(...).hexdigest(m)`
(standard library, outside this repository) is modelled by a deterministic
stand-in digest with the same interface: `m` bytes derived from the input
bytes, printed as `2*m` lowercase hex characters.  The development relies
only on the digest's determinism and output length, not its distribution. -/

/-- JSON string escaping for the characters the model covers. -/
def jsonEscape (c : Char) : List Char :=
  if c == '"' then ['\\', '"']
  else if c == '\\' then ['\\', '\\']
  else if c == '\n' then ['\\', 'n']
  else if c == '\t' then ['\\', 't']
  else if c == '\r' then ['\\', 'r']
  else [c]

/-- `json.dumps` of a string: quoted and escaped. -/
def jsonStr (s : String) : String :=
  String.mk ('"' :: (s.data.map jsonEscape).flatten ++ ['"'])

mutual

/-- `json.dumps` of a value. -/
def jsonVal : PyVal → String
  | .vnull => "null"
  | .vbool true => "true"
  | .vbool false => "false"
  | .vint n => toString n
  | .vstr s => jsonStr s
  | .vlist xs => "[" ++ jsonList xs ++ "]"
  | .vdict d => "\x7b" ++ jsonFields d ++ "\x7d"

/-- `json.dumps` of the element list of a JSON array. -/
def jsonList : List PyVal → String
  | [] => ""
  | [x] => jsonVal x
  | x :: y :: rest => jsonVal x ++ ", " ++ jsonList (y :: rest)

/-- `json.dumps` of the entry list of a JSON object. -/
def jsonFields : List (String × PyVal) → String
  | [] => ""
  | [(k, v)] => jsonStr k ++ ": " ++ jsonVal v
  | (k, v) :: e :: rest =>
      jsonStr k ++ ": " ++ jsonVal v ++ ", " ++ jsonFields (e :: rest)

end

/-- `.encode("utf-8")`, modelled at the code-point level. -/
def strBytes (s : String) : List Nat :=
  s.data.map Char.toNat

/-- Stand-in absorption phase of the digest. -/
def shakeSeed (input : List Nat) : Nat :=
  input.foldl (fun a b => (a * 131 + b + 17) % 1000000007) 8731

/-- Stand-in squeeze phase of the digest: byte `i` of the output. -/
def shakeByte (seed i : Nat) : Nat :=
  (seed * (2 * i + 3) + i * i + (seed / 256) * 7 + (seed / 65536) * 13) % 256

/-- Lowercase hex digit. -/
def hexChar (n : Nat) : Char :=
  "0123456789abcdef".data.getD n '0'

/-- A byte printed as exactly two hex characters. -/
def toHexPair (b : Nat) : List Char :=
  [hexChar (b / 16 % 16), hexChar (b % 16)]

/-- `shake_128(input).hexdigest(m)`: `m` output bytes as `2*m` hex
characters. -/
def shakeHexdigest (input : List Nat) (m : Nat) : String :=
  String.mk (((List.range m).map
    (fun i => toHexPair (shakeByte (shakeSeed input) i))).flatten)

namespace DashShare

/-- `DashShare.encode` (`share.py`, lines 327-339):
`shake_128(json.dumps(state).encode("utf-8")).hexdigest(int(n / 2))`. -/
def encode (state : PyVal) (n : Nat) : String :=
  shakeHexdigest (strBytes (jsonVal state)) (n / 2)

end DashShare

/-! ### URL base (`DashShare.get_url_base`) -/

/-- First occurrence split: the text before and after the first contiguous
run equal to `sub`. -/
def splitAtSub (sub : List Char) : List Char → Option (List Char × List Char)
  | [] => none
  | c :: rest =>
      if chStarts sub (c :: rest) then some ([], (c :: rest).drop sub.length)
      else
        match splitAtSub sub rest with
        | some (a, b) => some (c :: a, b)
        | none => none

namespace DashShare

/-- `urllib.parse.urlparse` (standard library, outside this repository)
restricted to what `get_url_base` reads from it: the scheme before `://`
and the netloc up to the next `/`, `?` or `#`.  A url without `://` has
empty scheme and netloc, as in Python. -/
def urlSchemeNetloc (url : String) : String × String :=
  match splitAtSub "://".data url.data with
  | some (before, after) =>
      (String.mk before,
       String.mk (after.takeWhile
         (fun c => !(c == '/') && !(c == '?') && !(c == '#'))))
  | none => ("", "")

/-- `DashShare.get_url_base` (`share.py`, lines 341-355): scheme, netloc
and the `/dash` suffix iff the `ON_SERVER` environment value is present
and truthy. -/
def get_url_base (onServer : Option String) (url : String) : String :=
  let p := urlSchemeNetloc url
  let tail := match onServer with
    | none => ""
    | some s => if s == "" then "" else "/dash"
  p.1 ++ "://" ++ p.2 ++ tail

end DashShare

/-! ### File persistence (`FileShare`)

The `./share` directory is modelled as a `FileStore`: an ordered list of
`(fingerprint, state)` records, `<hash>.json` existence as key membership
and the `json.dump`/`json.load` round trip as storing the `PyVal` itself. -/

structure FileStore where
  files : List (String × PyVal)

/-- Does `./share/<h>.json` exist, and with which content? -/
def storeGet (st : FileStore) (h : String) : Option PyVal :=
  match st.files.find? (fun p => p.1 == h) with
  | some p => some p.2
  | none => none

/-- Number of stored records carrying fingerprint `h`. -/
def storeCount (st : FileStore) (h : String) : Nat :=
  st.files.countP (fun p => p.1 == h)

/-- Python truthiness of an optional int callback input (`if input:`). -/
def truthyOptInt : Option Int → Bool
  | none => false
  | some n => !(n == 0)

namespace FileShare

/-- `FileShare.load` (`share.py`, lines 383-403): parse the query string
of the input for a `state` key; on a hit read the stored record and clear
the modal's `is_open` prop through `update_component_state`; on a missing
record (FileNotFoundError) or a missing `state` key return the supplied
current state. -/
def load (modalId : String) (store : FileStore) (input : String)
    (state : PyVal) : Except UErr PyVal :=
  let q := DashShare.parse_query_string input
  match lookupStr q "state" with
  | some fp =>
      match storeGet store fp with
      | none => Except.ok state
      | some loaded =>
          update_component_state loaded
            [(modalId, [("is_open", PyVal.vbool false)])]
  | none => Except.ok state

/-- `FileShare.save` (`share.py`, lines 405-428): return immediately when
`<hash>.json` already exists; otherwise, for a positive click count, apply
the configured pre-save `update_components` patch and append the record.
The function returns its `input`. -/
def save (updateComponents : PatchSet) (input : Option Int) (state : PyVal)
    (hash : String) (store : FileStore) :
    Except UErr (FileStore × Option Int) :=
  if (storeGet store hash).isSome then Except.ok (store, input)
  else
    match input with
    | some n =>
        if 0 < n then do
          let state' ←
            if updateComponents.isEmpty then Except.ok state
            else update_component_state state updateComponents
          Except.ok ({ files := store.files ++ [(hash, state')] }, input)
        else Except.ok (store, input)
    | none => Except.ok (store, input)

end FileShare

namespace DashShare

/-- The `save` callback registered by `register_callbacks` (`share.py`,
lines 296-316), composed with `FileShare.save` as the user-supplied save
method: hash the current layout state, delegate to the persistence
adapter, and emit `(output, modal-toggle, link)` — the link only for a
truthy triggering input.  The pause decorator wrapped around it is
modelled separately by `pause_update`. -/
def save_callback (updateComponents : PatchSet) (onServer : Option String)
    (input : Option Int) (state : PyVal) (isOpen : Bool) (url : String)
    (store : FileStore) :
    Except UErr (FileStore × (Option Int × Bool × String)) := do
  let hashed := encode state 8
  let r ← FileShare.save updateComponents input state hashed store
  if truthyOptInt input then
    Except.ok (r.1, (r.2, !isOpen, get_url_base onServer url
      ++ "/?state=" ++ hashed))
  else
    Except.ok (r.1, (r.2, isOpen, ""))

end DashShare

/-! ### Lock coordination (`DashShare` lock flag, interval callbacks,
`pause_update`) -/

/-- The process-wide lock flag owned by a `DashShare` instance. -/
structure ShareState where
  locked : Bool

/-- `__post_init__`: the flag starts unlocked. -/
def initShareState : ShareState :=
  { locked := false }

/-- The `(disabled, n_intervals)` outputs written to the `dcc.Interval`
timer component by the two interval callbacks. -/
structure IntervalOut where
  disabled : Bool
  nIntervals : Int

namespace DashShare

/-- `DashShare.lock`. -/
def lock (_ : ShareState) : ShareState :=
  { locked := true }

/-- `DashShare.unlock`. -/
def unlock (_ : ShareState) : ShareState :=
  { locked := false }

/-- `enable_interval_and_lock` (`share.py`, lines 277-282): a truthy
reload trigger locks, a falsy one unlocks; both arm the timer by writing
`(disabled=False, n_intervals=0)`. -/
def enable_interval_and_lock (st : ShareState) (trigger : PyVal) :
    ShareState × IntervalOut :=
  if truthy trigger then (lock st, { disabled := false, nIntervals := 0 })
  else (unlock st, { disabled := false, nIntervals := 0 })

/-- `unlock_after_interval_trigger` (`share.py`, lines 290-294): when the
timer has fired (`n > 0`) unlock and write `(disabled=True,
n_intervals=1)`; otherwise leave the flag alone and write
`(False, 0)`. -/
def unlock_after_interval_trigger (st : ShareState) (n : Option Int) :
    ShareState × IntervalOut :=
  match n with
  | some k =>
      if 0 < k then (unlock st, { disabled := true, nIntervals := 1 })
      else (st, { disabled := false, nIntervals := 0 })
  | none => (st, { disabled := false, nIntervals := 0 })

/-- `DashShare.pause_update` (`share.py`, lines 229-242): the wrapped
callback returns the `no_update` sentinel (modelled as `none`) while
locked, and delegates otherwise. -/
def pause_update {α β : Type} (st : ShareState) (f : α → β) (x : α) :
    Option β :=
  if st.locked then none else some (f x)

end DashShare

/-! ## Helper lemmas -/

theorem hasKeyF_false_dictGet : ∀ (d : List (String × PyVal)) (k : String),
    hasKeyF d k = false → dictGet d k = none := by
  intro d k
  induction d with
  | nil => intro _; rfl
  | cons a t ih =>
      intro h
      rw [hasKeyF, List.any_cons] at h
      rcases Bool.or_eq_false_iff.mp h with ⟨h1, h2⟩
      rw [dictGet, List.find?_cons_of_neg _ (by simp [h1])]
      exact ih h2

@[simp] theorem except_bind_ok {ε α β : Type} (a : α)
    (f : α → Except ε β) : ((Except.ok a : Except ε α) >>= f) = f a := rfl

@[simp] theorem except_bind_error {ε α β : Type} (e : ε)
    (f : α → Except ε β) :
    ((Except.error e : Except ε α) >>= f) = Except.error e := rfl

theorem updPropsFields_no_children (ps : PatchSet)
    (d : List (String × PyVal)) (h : hasKeyF d "children" = false) :
    updPropsFields ps d = Except.ok d := by
  induction d with
  | nil => rfl
  | cons a t ih =>
      rw [hasKeyF, List.any_cons] at h
      rcases Bool.or_eq_false_iff.mp h with ⟨h1, h2⟩
      obtain ⟨k, v⟩ := a
      simp only at h1
      simp [updPropsFields, h1, ih h2]

theorem truthyOptInt_pos {n : Int} (h : 0 < n) :
    truthyOptInt (some n) = true := by
  simp [truthyOptInt]
  omega

theorem fileShare_save_write (uc : PatchSet) (n : Int) (state state' : PyVal)
    (hash : String) (store : FileStore) (hn : 0 < n)
    (hs : storeGet store hash = none)
    (hu : update_component_state state uc = Except.ok state') :
    FileShare.save uc (some n) state hash store =
      Except.ok ({ files := store.files ++ [(hash, state')] }, some n) := by
  cases uc with
  | nil =>
      have hst : Except.ok state = Except.ok state' := hu
      have hst' : state = state' := by cases hst; rfl
      subst hst'
      simp [FileShare.save, hs, hn]
  | cons a t =>
      have hne : ((a :: t : PatchSet).isEmpty) = false := rfl
      simp [FileShare.save, hs, hn, hne, hu]

theorem fileShare_save_skip (uc : PatchSet) (input : Option Int)
    (state : PyVal) (hash : String) (store : FileStore)
    (hs : (storeGet store hash).isSome = true) :
    FileShare.save uc input state hash store = Except.ok (store, input) := by
  simp [FileShare.save, hs]

theorem storeGet_append_self (store : FileStore) (hash : String)
    (state' : PyVal) :
    storeGet { files := store.files ++ [(hash, state')] } hash
      = some (match storeGet store hash with
              | some v => v
              | none => state') := by
  rw [storeGet, storeGet, List.find?_append]
  cases hfind : store.files.find? (fun p => p.1 == hash) with
  | none => simp [List.find?]
  | some p => simp

/-- `C2`: for every layout tree `T`, `update_component_state` with an empty
patch set returns `T` unchanged (the identity fast path). -/
theorem C2_empty_patch_identity (T : PyVal) :
    update_component_state T [] = Except.ok T := rfl

/-- `C4`: before patch lookup an element's id is normalized by replacing
`-` with `_`: an element whose props carry id `s` is matched by a patch
keyed `normalizeId s`, and in particular `"my-id"` normalizes to
`"my_id"`. -/
theorem C4_id_normalization :
    (∀ (s : String) (v w : PyVal),
      update_component_state
        (.vlist [.vdict [("props",
          .vdict [("id", .vstr s), ("value", v)])]])
        [(normalizeId s, [("value", w)])] =
        Except.ok (.vlist [.vdict [("props",
          .vdict [("id", .vstr s), ("value", w)])]]))
    ∧ normalizeId "my-id" = "my_id" := by
  constructor
  · intro s v w
    simp [update_component_state, updVal, updList, updItem, updItemFields,
      updPropsVal, updPropsFields, idMergeFields, dictGet, patchFor,
      dictUpdate, dictSet, hasKeyF, List.find?, List.foldl, normalizeId]
  · rfl

theorem lookupStr_cons_eq {k' k v : String} {t : List (String × String)}
    (h : (k' == k) = true) : lookupStr ((k', v) :: t) k = some v := by
  simp [lookupStr, List.find?_cons_of_pos, h]

theorem lookupStr_cons_ne {k' k v : String} {t : List (String × String)}
    (h : (k' == k) = false) : lookupStr ((k', v) :: t) k = lookupStr t k := by
  rw [lookupStr, List.find?_cons_of_neg t (by simp [h])]
  rfl

theorem lookup_groupPairsAux (l : List (String × String)) :
    ∀ (seen : List String) (k : String),
      seen.any (fun x => x == k) = false →
      lookupStr ((groupPairsAux seen l).map (fun p => (p.1, p.2.headD ""))) k
        = lookupStr l k := by
  induction l with
  | nil => intro seen k _; rfl
  | cons a t ih =>
      intro seen k hk
      obtain ⟨k', v⟩ := a
      by_cases hseen : seen.any (fun x => x == k') = true
      · have hkk : (k' == k) = false := by
          cases hb : (k' == k) with
          | false => rfl
          | true =>
              have hb' : k' = k := eq_of_beq hb
              subst hb'
              exact absurd hseen (by simp [hk])
        rw [groupPairsAux, if_pos hseen, lookupStr_cons_ne hkk]
        exact ih seen k hk
      · rw [groupPairsAux, if_neg hseen, List.map_cons]
        simp only [List.headD_cons]
        cases hkk : (k' == k) with
        | true =>
            rw [lookupStr_cons_eq hkk, lookupStr_cons_eq hkk]
        | false =>
            rw [lookupStr_cons_ne hkk, lookupStr_cons_ne hkk]
            refine ih (k' :: seen) k ?_
            simp only [List.any_cons]
            rw [hkk, hk]
            rfl

theorem toHexPair_len (b : Nat) : (toHexPair b).length = 2 := rfl

theorem flatten_hex_length (l : List Nat) :
    ((l.map toHexPair).flatten).length = 2 * l.length := by
  induction l with
  | nil => rfl
  | cons a t ih =>
      simp only [List.map_cons, List.flatten_cons, List.length_append, ih,
        List.length_cons, toHexPair_len]
      omega

theorem shakeHexdigest_length (input : List Nat) (m : Nat) :
    (shakeHexdigest input m).length = 2 * m := by
  have hmm : (List.range m).map
      (fun i => toHexPair (shakeByte (shakeSeed input) i)) =
      ((List.range m).map (shakeByte (shakeSeed input))).map toHexPair := by
    simp [List.map_map, Function.comp]
  show (((List.range m).map
      (fun i => toHexPair (shakeByte (shakeSeed input) i))).flatten).length
      = 2 * m
  rw [hmm, flatten_hex_length]
  simp

theorem storeGet_none_find? {st : FileStore} {h : String}
    (hs : storeGet st h = none) :
    st.files.find? (fun p => p.1 == h) = none := by
  revert hs
  rw [storeGet]
  cases st.files.find? (fun p => p.1 == h) with
  | none => intro _; rfl
  | some p => intro hs; exact absurd hs (by simp)

/-- `C10`: `encode` always returns a hex string of exactly `2 * (n / 2)`
characters (the digest length is `int(n / 2)` bytes), so an odd requested
length `n` yields `n - 1` characters, never `n`. -/
theorem C10_encode_length (state : PyVal) (n : Nat) :
    (DashShare.encode state n).length = 2 * (n / 2) ∧
    (n % 2 = 1 → (DashShare.encode state n).length = n - 1) := by
  have h : (DashShare.encode state n).length = 2 * (n / 2) :=
    shakeHexdigest_length (strBytes (jsonVal state)) (n / 2)
  exact ⟨h, fun hodd => by rw [h]; omega⟩

theorem C10_encode_length_witness :
    7 % 2 = 1 ∧ (DashShare.encode PyVal.vnull 7).length = 7 - 1 :=
  ⟨by decide, (C10_encode_length PyVal.vnull 7).2 (by decide)⟩

/-- `C9`: `parse_query_string` maps each key to only the first of its
values — its result looks up exactly like the flat `parse_qsl` field list,
whose first match per key wins, so later values of a repeated key are
discarded — and every `?` anywhere in the input is removed before
parsing. -/
theorem C9_parse_query_string :
    (∀ (qs k : String),
      lookupStr (DashShare.parse_query_string qs) k =
        lookupStr (parse_qsl (removeQuestionMarks qs)) k)
    ∧ (∀ l : List Char,
      DashShare.parse_query_string (String.mk l) =
        DashShare.parse_query_string (String.mk
          (l.filter (fun c => !(c == '?'))))) := by
  constructor
  · intro qs k
    exact lookup_groupPairsAux (parse_qsl (removeQuestionMarks qs)) [] k rfl
  · intro l
    have hq : removeQuestionMarks (String.mk l) =
        removeQuestionMarks (String.mk (l.filter (fun c => !(c == '?')))) := by
      simp [removeQuestionMarks, List.filter_filter]
    rw [DashShare.parse_query_string, DashShare.parse_query_string, hq]

/-- `C6`: a load whose query string names a fingerprint with no stored
record returns the caller-supplied current state unchanged and surfaces
no error. -/
theorem C6_load_fallback (modalId : String) (store : FileStore)
    (input : String) (state : PyVal) (fp : String)
    (hq : lookupStr (DashShare.parse_query_string input) "state" = some fp)
    (hs : storeGet store fp = none) :
    FileShare.load modalId store input state = Except.ok state := by
  simp [FileShare.load, hq, hs]

theorem C6_load_fallback_witness :
    lookupStr (DashShare.parse_query_string "?state=abcd1234") "state"
      = some "abcd1234"
    ∧ storeGet { files := [] } "abcd1234" = none
    ∧ FileShare.load "save-modal" { files := [] } "?state=abcd1234"
        (PyVal.vstr "current") = Except.ok (PyVal.vstr "current") :=
  ⟨rfl, rfl, C6_load_fallback "save-modal" { files := [] } "?state=abcd1234"
    (PyVal.vstr "current") "abcd1234" rfl rfl⟩

/-- `C7`: when `<fingerprint>.json` already exists, `FileShare.save`
returns without raising and without overwriting; saving twice with
identical state (hence an identical fingerprint) leaves exactly one stored
record for that fingerprint. -/
theorem C7_save_idempotence :
    (∀ (uc : PatchSet) (input : Option Int) (state : PyVal) (hash : String)
        (store : FileStore), (storeGet store hash).isSome = true →
      FileShare.save uc input state hash store = Except.ok (store, input))
    ∧ (∀ (uc : PatchSet) (n : Int) (state state' : PyVal) (store : FileStore),
        0 < n →
        storeGet store (DashShare.encode state 8) = none →
        update_component_state state uc = Except.ok state' →
        FileShare.save uc (some n) state (DashShare.encode state 8) store =
          Except.ok ({ files := store.files
            ++ [(DashShare.encode state 8, state')] }, some n)
        ∧ FileShare.save uc (some n) state (DashShare.encode state 8)
            { files := store.files ++ [(DashShare.encode state 8, state')] } =
          Except.ok ({ files := store.files
            ++ [(DashShare.encode state 8, state')] }, some n)
        ∧ storeCount { files := store.files
            ++ [(DashShare.encode state 8, state')] }
            (DashShare.encode state 8) = 1) := by
  constructor
  · exact fun uc input state hash store hs =>
      fileShare_save_skip uc input state hash store hs
  · intro uc n state state' store hn hs hu
    refine ⟨fileShare_save_write uc n state state'
      (DashShare.encode state 8) store hn hs hu, ?_, ?_⟩
    · apply fileShare_save_skip
      rw [storeGet_append_self]
      rfl
    · rw [storeCount, List.countP_append]
      have h0 : store.files.countP
          (fun p => p.1 == DashShare.encode state 8) = 0 := by
        rw [List.countP_eq_zero]
        intro p hp
        have := List.find?_eq_none.mp (storeGet_none_find? hs) p hp
        simpa using this
      rw [h0]
      simp [List.countP_cons]

theorem C7_save_idempotence_witness :
    (0 : Int) < 1
    ∧ storeGet { files := [] } (DashShare.encode (PyVal.vstr "s") 8) = none
    ∧ update_component_state (PyVal.vstr "s") [] = Except.ok (PyVal.vstr "s")
    ∧ (FileShare.save [] (some 1) (PyVal.vstr "s")
          (DashShare.encode (PyVal.vstr "s") 8) { files := [] } =
        Except.ok ({ files := [(DashShare.encode (PyVal.vstr "s") 8,
          PyVal.vstr "s")] }, some 1)
      ∧ FileShare.save [] (some 1) (PyVal.vstr "s")
          (DashShare.encode (PyVal.vstr "s") 8)
          { files := [(DashShare.encode (PyVal.vstr "s") 8, PyVal.vstr "s")] } =
        Except.ok ({ files := [(DashShare.encode (PyVal.vstr "s") 8,
          PyVal.vstr "s")] }, some 1)
      ∧ storeCount { files := [(DashShare.encode (PyVal.vstr "s") 8,
          PyVal.vstr "s")] } (DashShare.encode (PyVal.vstr "s") 8) = 1) :=
  ⟨by decide, rfl, rfl,
    C7_save_idempotence.2 [] 1 (PyVal.vstr "s") (PyVal.vstr "s")
      { files := [] } (by decide) rfl rfl⟩

/-- `C8` counterexample: when the timer fires (`n_intervals = 1 > 0`) the
callback writes `n_intervals = 1` back, so the counter is *not* reset
to `0` as the claim states. -/
theorem C8_counterexample :
    DashShare.unlock_after_interval_trigger { locked := true } (some 1) =
      ({ locked := false }, { disabled := true, nIntervals := 1 }) ∧
    ¬ (DashShare.unlock_after_interval_trigger { locked := true }
        (some 1)).2.nIntervals = 0 := by
  exact ⟨rfl, by decide⟩

/-- `C8` (amended): a truthy reload trigger locks and arms the timer
(enabled, counter `0`); every pause-decorated callback invoked while
locked returns the no-op sentinel; when the timer fires with count `> 0`
the state returns to unlocked and the timer is disabled with its counter
written to `1` (its single-shot maximum, not reset to `0`); afterwards
pause-decorated calls delegate to the wrapped callback. -/
theorem C8_lock_window_amended :
    (∀ (st : ShareState) (trigger : PyVal), truthy trigger = true →
      DashShare.enable_interval_and_lock st trigger =
        ({ locked := true }, { disabled := false, nIntervals := 0 }))
    ∧ (∀ (α β : Type) (st : ShareState) (f : α → β) (x : α),
        st.locked = true → DashShare.pause_update st f x = none)
    ∧ (∀ (st : ShareState) (k : Int), 0 < k →
        DashShare.unlock_after_interval_trigger st (some k) =
          ({ locked := false }, { disabled := true, nIntervals := 1 }))
    ∧ (∀ (α β : Type) (st : ShareState) (f : α → β) (x : α),
        st.locked = false → DashShare.pause_update st f x = some (f x)) := by
  refine ⟨?_, ?_, ?_, ?_⟩
  · intro st trigger ht
    simp [DashShare.enable_interval_and_lock, DashShare.lock, ht]
  · intro α β st f x hl
    simp [DashShare.pause_update, hl]
  · intro st k hk
    simp [DashShare.unlock_after_interval_trigger, DashShare.unlock, hk]
  · intro α β st f x hl
    simp [DashShare.pause_update, hl]

theorem C8_lock_window_amended_witness :
    truthy (PyVal.vint 1) = true ∧
    DashShare.enable_interval_and_lock { locked := false } (PyVal.vint 1) =
      ({ locked := true }, { disabled := false, nIntervals := 0 }) ∧
    DashShare.pause_update { locked := true } (fun m : Nat => m + 1) 0 = none ∧
    DashShare.unlock_after_interval_trigger { locked := true } (some 2) =
      ({ locked := false }, { disabled := true, nIntervals := 1 }) ∧
    DashShare.pause_update { locked := false } (fun m : Nat => m + 1) 0 =
      some 1 :=
  ⟨rfl,
   C8_lock_window_amended.1 { locked := false } (PyVal.vint 1) rfl,
   C8_lock_window_amended.2.1 Nat Nat { locked := true }
     (fun m => m + 1) 0 rfl,
   C8_lock_window_amended.2.2.1 { locked := true } 2 (by decide),
   C8_lock_window_amended.2.2.2 Nat Nat { locked := false }
     (fun m => m + 1) 0 rfl⟩

theorem nmFields_cons {ps : PatchSet} {k : String} {v : PyVal}
    {rest : List (String × PyVal)} (h : nmFields ps ((k, v) :: rest) = true) :
    nmVal ps v = true ∧ nmFields ps rest = true := by
  rw [nmFields] at h
  rcases Bool.and_eq_true_iff.mp h with ⟨h1, h3⟩
  rcases Bool.and_eq_true_iff.mp h1 with ⟨_, h2⟩
  exact ⟨h2, h3⟩

theorem nmFields_id (ps : PatchSet) (d : List (String × PyVal)) :
    ∀ (s : String), nmFields ps d = true →
      dictGet d "id" = some (.vstr s) →
      (patchFor ps (normalizeId s)).isNone = true := by
  induction d with
  | nil =>
      intro s _ hid
      exact absurd hid (by simp [dictGet, List.find?])
  | cons a t ih =>
      intro s hm hid
      obtain ⟨k, v⟩ := a
      rw [nmFields] at hm
      rcases Bool.and_eq_true_iff.mp hm with ⟨h1, h3⟩
      rcases Bool.and_eq_true_iff.mp h1 with ⟨hidc, _⟩
      cases hk : (k == "id") with
      | true =>
          have hg : dictGet ((k, v) :: t) "id" = some v := by
            rw [dictGet, List.find?_cons_of_pos t hk]
          rw [hg] at hid
          injection hid with hv
          subst hv
          simp only [idOk, hk, if_true] at hidc
          exact hidc
      | false =>
          have hg : dictGet ((k, v) :: t) "id" = dictGet t "id" := by
            rw [dictGet, List.find?_cons_of_neg t (by simp [hk])]
            rfl
          rw [hg] at hid
          exact ih s h3 hid

theorem idMergeFields_nm (ps : PatchSet) (h0 : (patchFor ps "").isNone = true)
    (pd : List (String × PyVal)) (hm : nmFields ps pd = true) :
    ∀ y, idMergeFields ps pd = Except.ok y → y = pd := by
  intro y he
  rw [idMergeFields] at he
  cases hid : dictGet pd "id" with
  | none =>
      rw [hid] at he
      have hp : patchFor ps (normalizeId "") = none :=
        Option.isNone_iff_eq_none.mp h0
      simp only [except_bind_ok, hp] at he
      injection he with h
      exact h.symm
  | some v =>
      cases v with
      | vstr s =>
          rw [hid] at he
          have hp : patchFor ps (normalizeId s) = none :=
            Option.isNone_iff_eq_none.mp (nmFields_id ps pd s hm hid)
          simp only [except_bind_ok, hp] at he
          injection he with h
          exact h.symm
      | vnull => rw [hid] at he; simp at he
      | vint n => rw [hid] at he; simp at he
      | vbool b => rw [hid] at he; simp at he
      | vlist xs => rw [hid] at he; simp at he
      | vdict dd => rw [hid] at he; simp at he

mutual

theorem updVal_nm (ps : PatchSet) (h0 : (patchFor ps "").isNone = true) :
    ∀ (v : PyVal), nmVal ps v = true →
      ∀ y, updVal ps v = Except.ok y → y = v
  | .vdict d, hm, y, he => by
      rw [updVal] at he
      cases hd : updDictEntries ps d with
      | error e => rw [hd] at he; simp at he
      | ok d1 =>
          rw [hd] at he
          simp only [except_bind_ok] at he
          have hmf : nmFields ps d = true := by
            simpa only [nmVal] using hm
          have hd1 : d1 = d := updDictEntries_nm ps h0 d hmf d1 hd
          subst hd1
          cases hid : dictGet d1 "id" with
          | none =>
              rw [hid] at he
              injection he with h
              exact h.symm
          | some v' =>
              cases v' with
              | vstr s =>
                  rw [hid] at he
                  have hp : patchFor ps (normalizeId s) = none :=
                    Option.isNone_iff_eq_none.mp (nmFields_id ps d1 s hmf hid)
                  simp only [hp] at he
                  injection he with h
                  exact h.symm
              | vnull => rw [hid] at he; simp at he
              | vint n => rw [hid] at he; simp at he
              | vbool b => rw [hid] at he; simp at he
              | vlist xs => rw [hid] at he; simp at he
              | vdict dd => rw [hid] at he; simp at he
  | .vstr s, _, y, he => by
      rw [updVal] at he
      injection he with h
      exact h.symm
  | .vnull, _, y, he => by
      rw [updVal] at he
      injection he with h
      exact h.symm
  | .vlist xs, hm, y, he => by
      rw [updVal] at he
      cases hx : updList ps xs with
      | error e => rw [hx] at he; simp at he
      | ok ys =>
          rw [hx] at he
          simp only [except_bind_ok] at he
          have hys : ys = xs := updList_nm ps h0 xs
            (by simpa only [nmVal] using hm) ys hx
          subst hys
          injection he with h
          exact h.symm
  | .vint n, _, y, he => by rw [updVal] at he; simp at he
  | .vbool b, _, y, he => by rw [updVal] at he; simp at he

theorem updDictEntries_nm (ps : PatchSet)
    (h0 : (patchFor ps "").isNone = true) :
    ∀ (l : List (String × PyVal)), nmFields ps l = true →
      ∀ y, updDictEntries ps l = Except.ok y → y = l
  | [], _, y, he => by
      rw [updDictEntries] at he
      injection he with h
      exact h.symm
  | (k, v) :: rest, hm, y, he => by
      rcases nmFields_cons hm with ⟨hmv, hmr⟩
      rw [updDictEntries] at he
      cases hcond : (k == "children" || k == "props") with
      | true =>
          rw [hcond] at he
          simp only [if_true] at he
          cases hv : updVal ps v with
          | error e => rw [hv] at he; simp at he
          | ok v' =>
              rw [hv] at he
              simp only [except_bind_ok] at he
              cases hr : updDictEntries ps rest with
              | error e => rw [hr] at he; simp at he
              | ok rest' =>
                  rw [hr] at he
                  simp only [except_bind_ok] at he
                  have h1 : v' = v := updVal_nm ps h0 v hmv v' hv
                  have h2 : rest' = rest :=
                    updDictEntries_nm ps h0 rest hmr rest' hr
                  subst h1; subst h2
                  injection he with h
                  exact h.symm
      | false =>
          rw [hcond] at he
          simp only [Bool.false_eq_true, if_false] at he
          cases hr : updDictEntries ps rest with
          | error e => rw [hr] at he; simp at he
          | ok rest' =>
              rw [hr] at he
              simp only [except_bind_ok] at he
              have h2 : rest' = rest :=
                updDictEntries_nm ps h0 rest hmr rest' hr
              subst h2
              injection he with h
              exact h.symm

theorem updList_nm (ps : PatchSet) (h0 : (patchFor ps "").isNone = true) :
    ∀ (l : List PyVal), nmList ps l = true →
      ∀ y, updList ps l = Except.ok y → y = l
  | [], _, y, he => by
      rw [updList] at he
      injection he with h
      exact h.symm
  | item :: rest, hm, y, he => by
      rw [nmList] at hm
      rcases Bool.and_eq_true_iff.mp hm with ⟨hmi, hmr⟩
      rw [updList] at he
      cases hi : updItem ps item with
      | error e => rw [hi] at he; simp at he
      | ok item' =>
          rw [hi] at he
          simp only [except_bind_ok] at he
          cases hr : updList ps rest with
          | error e => rw [hr] at he; simp at he
          | ok rest' =>
              rw [hr] at he
              simp only [except_bind_ok] at he
              have h1 : item' = item := updItem_nm ps h0 item hmi item' hi
              have h2 : rest' = rest := updList_nm ps h0 rest hmr rest' hr
              subst h1; subst h2
              injection he with h
              exact h.symm

theorem updItem_nm (ps : PatchSet) (h0 : (patchFor ps "").isNone = true) :
    ∀ (v : PyVal), nmVal ps v = true →
      ∀ y, updItem ps v = Except.ok y → y = v
  | .vdict ifields, hm, y, he => by
      rw [updItem] at he
      cases hp : hasKeyF ifields "props" with
      | false => rw [hp] at he; simp at he
      | true =>
          rw [hp] at he
          simp only [if_true] at he
          cases hf : updItemFields ps ifields with
          | error e => rw [hf] at he; simp at he
          | ok ifields' =>
              rw [hf] at he
              simp only [except_bind_ok] at he
              have h1 : ifields' = ifields := updItemFields_nm ps h0 ifields
                (by simpa only [nmVal] using hm) ifields' hf
              subst h1
              injection he with h
              exact h.symm
  | .vstr s, _, y, he => Except.noConfusion he
  | .vnull, _, y, he => Except.noConfusion he
  | .vint n, _, y, he => Except.noConfusion he
  | .vbool b, _, y, he => Except.noConfusion he
  | .vlist xs, _, y, he => Except.noConfusion he

theorem updItemFields_nm (ps : PatchSet)
    (h0 : (patchFor ps "").isNone = true) :
    ∀ (l : List (String × PyVal)), nmFields ps l = true →
      ∀ y, updItemFields ps l = Except.ok y → y = l
  | [], _, y, he => by
      rw [updItemFields] at he
      injection he with h
      exact h.symm
  | (k, v) :: rest, hm, y, he => by
      rcases nmFields_cons hm with ⟨hmv, hmr⟩
      rw [updItemFields] at he
      cases hcond : (k == "props") with
      | true =>
          rw [hcond] at he
          simp only [if_true] at he
          cases hv : updPropsVal ps v with
          | error e => rw [hv] at he; simp at he
          | ok v' =>
              rw [hv] at he
              simp only [except_bind_ok] at he
              cases hr : updItemFields ps rest with
              | error e => rw [hr] at he; simp at he
              | ok rest' =>
                  rw [hr] at he
                  simp only [except_bind_ok] at he
                  have h1 : v' = v := updPropsVal_nm ps h0 v hmv v' hv
                  have h3 : rest' = rest :=
                    updItemFields_nm ps h0 rest hmr rest' hr
                  subst h1; subst h3
                  injection he with h
                  exact h.symm
      | false =>
          rw [hcond] at he
          simp only [Bool.false_eq_true, if_false] at he
          cases hr : updItemFields ps rest with
          | error e => rw [hr] at he; simp at he
          | ok rest' =>
              rw [hr] at he
              simp only [except_bind_ok] at he
              have h3 : rest' = rest :=
                updItemFields_nm ps h0 rest hmr rest' hr
              subst h3
              injection he with h
              exact h.symm

theorem updPropsVal_nm (ps : PatchSet)
    (h0 : (patchFor ps "").isNone = true) :
    ∀ (v : PyVal), nmVal ps v = true →
      ∀ y, updPropsVal ps v = Except.ok y → y = v
  | .vdict pd, hm, y, he => by
      rw [updPropsVal] at he
      have hmpd : nmFields ps pd = true := by
        simpa only [nmVal] using hm
      cases hpd : updPropsFields ps pd with
      | error e => rw [hpd] at he; simp at he
      | ok pd1 =>
          rw [hpd] at he
          simp only [except_bind_ok] at he
          have h1 : pd1 = pd := updPropsFields_nm ps h0 pd hmpd pd1 hpd
          subst h1
          cases hm2 : idMergeFields ps pd1 with
          | error e => rw [hm2] at he; simp at he
          | ok pd2 =>
              rw [hm2] at he
              simp only [except_bind_ok] at he
              have h2 : pd2 = pd1 :=
                idMergeFields_nm ps h0 pd1 hmpd pd2 hm2
              subst h2
              injection he with h
              exact h.symm
  | .vstr s, _, y, he => Except.noConfusion he
  | .vnull, _, y, he => Except.noConfusion he
  | .vint n, _, y, he => Except.noConfusion he
  | .vbool b, _, y, he => Except.noConfusion he
  | .vlist xs, _, y, he => Except.noConfusion he

theorem updPropsFields_nm (ps : PatchSet)
    (h0 : (patchFor ps "").isNone = true) :
    ∀ (l : List (String × PyVal)), nmFields ps l = true →
      ∀ y, updPropsFields ps l = Except.ok y → y = l
  | [], _, y, he => by
      rw [updPropsFields] at he
      injection he with h
      exact h.symm
  | (k, v) :: rest, hm, y, he => by
      rcases nmFields_cons hm with ⟨hmv, hmr⟩
      rw [updPropsFields] at he
      cases hcond : (k == "children") with
      | true =>
          rw [hcond] at he
          simp only [if_true] at he
          cases hv : updChildrenVal ps v with
          | error e => rw [hv] at he; simp at he
          | ok v' =>
              rw [hv] at he
              simp only [except_bind_ok] at he
              cases hr : updPropsFields ps rest with
              | error e => rw [hr] at he; simp at he
              | ok rest' =>
                  rw [hr] at he
                  simp only [except_bind_ok] at he
                  have h1 : v' = v := updChildrenVal_nm ps h0 v hmv v' hv
                  have h2 : rest' = rest :=
                    updPropsFields_nm ps h0 rest hmr rest' hr
                  subst h1; subst h2
                  injection he with h
                  exact h.symm
      | false =>
          rw [hcond] at he
          simp only [Bool.false_eq_true, if_false] at he
          cases hr : updPropsFields ps rest with
          | error e => rw [hr] at he; simp at he
          | ok rest' =>
              rw [hr] at he
              simp only [except_bind_ok] at he
              have h2 : rest' = rest :=
                updPropsFields_nm ps h0 rest hmr rest' hr
              subst h2
              injection he with h
              exact h.symm

theorem updChildrenVal_nm (ps : PatchSet)
    (h0 : (patchFor ps "").isNone = true) :
    ∀ (v : PyVal), nmVal ps v = true →
      ∀ y, updChildrenVal ps v = Except.ok y → y = v
  | .vdict cd, hm, y, he => by
      rw [updChildrenVal] at he
      cases hemp : cd.isEmpty with
      | true =>
          rw [hemp] at he
          simp only [if_true] at he
          injection he with h
          exact h.symm
      | false =>
          rw [hemp] at he
          simp only [Bool.false_eq_true, if_false] at he
          have hmf : nmFields ps cd = true := by
            simpa only [nmVal] using hm
          cases hc1 : pyIn "children"
              (match dictGet cd "props" with
               | some pv => pv
               | none => .vstr "") with
          | error e => rw [hc1] at he; simp at he
          | ok c1 =>
              rw [hc1] at he
              simp only [except_bind_ok] at he
              cases hbr : (c1 || hasKeyF cd "props") with
              | true =>
                  rw [hbr] at he
                  simp only [if_true] at he
                  cases ht : updTargetFields ps "props" cd with
                  | error e => rw [ht] at he; simp at he
                  | ok cd' =>
                      rw [ht] at he
                      simp only [except_bind_ok] at he
                      have h1 : cd' = cd :=
                        updTargetFields_nm ps h0 "props" cd hmf cd' ht
                      subst h1
                      injection he with h
                      exact h.symm
              | false =>
                  rw [hbr] at he
                  simp only [Bool.false_eq_true, if_false] at he
                  cases hck : hasKeyF cd "children" with
                  | true =>
                      rw [hck] at he
                      simp only [if_true] at he
                      cases ht : updTargetFields ps "children" cd with
                      | error e => rw [ht] at he; simp at he
                      | ok cd' =>
                          rw [ht] at he
                          simp only [except_bind_ok] at he
                          have h1 : cd' = cd :=
                            updTargetFields_nm ps h0 "children" cd hmf cd' ht
                          subst h1
                          injection he with h
                          exact h.symm
                  | false =>
                      rw [hck] at he
                      simp at he
  | .vlist cs, hm, y, he => by
      rw [updChildrenVal] at he
      cases hemp : cs.isEmpty with
      | true =>
          rw [hemp] at he
          simp only [if_true] at he
          injection he with h
          exact h.symm
      | false =>
          rw [hemp] at he
          simp only [Bool.false_eq_true, if_false] at he
          cases hx : updList ps cs with
          | error e => rw [hx] at he; simp at he
          | ok cs' =>
              rw [hx] at he
              simp only [except_bind_ok] at he
              have h1 : cs' = cs := updList_nm ps h0 cs
                (by simpa only [nmVal] using hm) cs' hx
              subst h1
              injection he with h
              exact h.symm
  | .vstr s, _, y, he => by
      injection he with h
      exact h.symm
  | .vnull, _, y, he => by
      injection he with h
      exact h.symm
  | .vint n, _, y, he => by
      injection he with h
      exact h.symm
  | .vbool b, _, y, he => by
      injection he with h
      exact h.symm

theorem updTargetFields_nm (ps : PatchSet)
    (h0 : (patchFor ps "").isNone = true) :
    ∀ (target : String) (l : List (String × PyVal)), nmFields ps l = true →
      ∀ y, updTargetFields ps target l = Except.ok y → y = l
  | _, [], _, y, he => by
      rw [updTargetFields] at he
      injection he with h
      exact h.symm
  | target, (k, v) :: rest, hm, y, he => by
      rcases nmFields_cons hm with ⟨hmv, hmr⟩
      rw [updTargetFields] at he
      cases hcond : (k == target) with
      | true =>
          rw [hcond] at he
          simp only [if_true] at he
          cases hv : updVal ps v with
          | error e => rw [hv] at he; simp at he
          | ok v' =>
              rw [hv] at he
              simp only [except_bind_ok] at he
              cases hr : updTargetFields ps target rest with
              | error e => rw [hr] at he; simp at he
              | ok rest' =>
                  rw [hr] at he
                  simp only [except_bind_ok] at he
                  have h1 : v' = v := updVal_nm ps h0 v hmv v' hv
                  have h2 : rest' = rest :=
                    updTargetFields_nm ps h0 target rest hmr rest' hr
                  subst h1; subst h2
                  injection he with h
                  exact h.symm
      | false =>
          rw [hcond] at he
          simp only [Bool.false_eq_true, if_false] at he
          cases hr : updTargetFields ps target rest with
          | error e => rw [hr] at he; simp at he
          | ok rest' =>
              rw [hr] at he
              simp only [except_bind_ok] at he
              have h2 : rest' = rest :=
                updTargetFields_nm ps h0 target rest hmr rest' hr
              subst h2
              injection he with h
              exact h.symm

end

theorem dictGet_cons_ne {k' k : String} {v : PyVal}
    {t : List (String × PyVal)} (h : (k' == k) = false) :
    dictGet ((k', v) :: t) k = dictGet t k := by
  rw [dictGet, List.find?_cons_of_neg t (by simp [h])]
  rfl

theorem dictGet_cons_eq {k' k : String} {v : PyVal}
    {t : List (String × PyVal)} (h : (k' == k) = true) :
    dictGet ((k', v) :: t) k = some v := by
  rw [dictGet, List.find?_cons_of_pos t h]

theorem dictGet_map_setkey (t : List (String × PyVal)) (k' k : String)
    (v : PyVal) (h : (k' == k) = false) :
    dictGet (t.map (fun p => if p.1 == k' then (k', v) else p)) k
      = dictGet t k := by
  induction t with
  | nil => rfl
  | cons a t ih =>
      obtain ⟨a1, a2⟩ := a
      simp only [List.map_cons]
      by_cases ha : (a1 == k') = true
      · have ha' : a1 = k' := eq_of_beq ha
        have hak : (a1 == k) = false := by rw [ha']; exact h
        rw [if_pos ha, dictGet_cons_ne h, dictGet_cons_ne hak]
        exact ih
      · rw [if_neg ha]
        by_cases hak : (a1 == k) = true
        · rw [dictGet_cons_eq hak, dictGet_cons_eq hak]
        · have hak' : (a1 == k) = false := by
            revert hak
            cases (a1 == k) <;> simp
          rw [dictGet_cons_ne hak', dictGet_cons_ne hak']
          exact ih

theorem dictGet_append_single (t : List (String × PyVal)) (k' k : String)
    (v : PyVal) (h : (k' == k) = false) :
    dictGet (t ++ [(k', v)]) k = dictGet t k := by
  induction t with
  | nil => simp [dictGet, List.find?, h]
  | cons a t ih =>
      obtain ⟨a1, a2⟩ := a
      rw [List.cons_append]
      cases hak : (a1 == k) with
      | true => rw [dictGet_cons_eq hak, dictGet_cons_eq hak]
      | false =>
          rw [dictGet_cons_ne hak, dictGet_cons_ne hak]
          exact ih

theorem dictGet_dictSet_ne (d : List (String × PyVal)) (k' k : String)
    (v : PyVal) (h : (k' == k) = false) :
    dictGet (dictSet d k' v) k = dictGet d k := by
  by_cases hk : hasKeyF d k' = true
  · rw [dictSet, if_pos hk]
    exact dictGet_map_setkey d k' k v h
  · rw [dictSet, if_neg hk]
    exact dictGet_append_single d k' k v h

theorem dictGet_dictUpdate_notmem (p : List (String × PyVal)) :
    ∀ (d : List (String × PyVal)) (k : String),
      p.all (fun q => !(q.1 == k)) = true →
      dictGet (dictUpdate d p) k = dictGet d k := by
  induction p with
  | nil => intro d k _; rfl
  | cons q t ih =>
      intro d k hall
      obtain ⟨q1, q2⟩ := q
      rw [List.all_cons] at hall
      rcases Bool.and_eq_true_iff.mp hall with ⟨h1, h2⟩
      have h1' : (q1 == k) = false := by
        revert h1
        cases (q1 == k) <;> simp
      rw [dictUpdate, List.foldl_cons]
      have hrec := ih (dictSet d q1 q2) k h2
      rw [dictUpdate] at hrec
      rw [hrec, dictGet_dictSet_ne d q1 k q2 h1']

theorem isolation_nomatch (ps : PatchSet) (v y : PyVal)
    (h0 : (patchFor ps "").isNone = true) (hm : nmVal ps v = true)
    (he : update_component_state v ps = Except.ok y) : y = v := by
  rw [update_component_state] at he
  cases hne : ps.isEmpty with
  | true =>
      rw [hne] at he
      simp only [if_true] at he
      injection he with h
      exact h.symm
  | false =>
      rw [hne] at he
      simp only [Bool.false_eq_true, if_false] at he
      exact updVal_nm ps h0 v hm y he

theorem isolation_merge (ps : PatchSet) (s : String)
    (p : List (String × PyVal)) (d : List (String × PyVal))
    (hc : hasKeyF d "children" = false)
    (hid : dictGet d "id" = some (.vstr s))
    (hp : patchFor ps (normalizeId s) = some p) :
    update_component_state (.vlist [.vdict [("props", .vdict d)]]) ps =
      Except.ok (.vlist [.vdict [("props", .vdict (dictUpdate d p))]]) := by
  have hne : ps.isEmpty = false := by
    cases ps with
    | nil => rw [patchFor] at hp; exact absurd hp (by simp [List.find?])
    | cons a t => rfl
  rw [update_component_state]
  rw [hne]
  simp only [Bool.false_eq_true, if_false]
  simp [updVal, updList, updItem, updItemFields, updPropsVal,
    updPropsFields_no_children ps d hc, idMergeFields, hid, hp, hasKeyF]

/-- `C3` counterexample: patching the nested element `"b"` changes the
`props` of its ancestor element `"a"` (through its `children` entry) even
though `"a"` is not a key of the patch set, so the claim that the props of
every unmatched element are unchanged fails as stated. -/
theorem C3_counterexample :
    update_component_state
      (.vlist [.vdict [("props", .vdict [("id", .vstr "a"),
        ("children", .vlist [.vdict [("props", .vdict [("id", .vstr "b"),
          ("x", .vstr "old")])]])])]])
      [("b", [("x", .vstr "new")])] =
      Except.ok (.vlist [.vdict [("props", .vdict [("id", .vstr "a"),
        ("children", .vlist [.vdict [("props", .vdict [("id", .vstr "b"),
          ("x", .vstr "new")])]])])]]) ∧
    patchFor [("b", [("x", .vstr "new")])] (normalizeId "a") = none ∧
    firstItemProps (.vlist [.vdict [("props", .vdict [("id", .vstr "a"),
        ("children", .vlist [.vdict [("props", .vdict [("id", .vstr "b"),
          ("x", .vstr "new")])]])])]]) ≠
      firstItemProps (.vlist [.vdict [("props", .vdict [("id", .vstr "a"),
        ("children", .vlist [.vdict [("props", .vdict [("id", .vstr "b"),
          ("x", .vstr "old")])]])])]]) := by
  refine ⟨rfl, rfl, ?_⟩
  intro h
  exact absurd (congrArg (Option.map jsonVal) h) (by decide)

/-- `C3` (amended): `update_component_state` changes only the props of
elements whose normalized id is a key of the patch set, together with the
`children`/`props` entries of ancestors through which matched descendants
are reached: (i) a tree none of whose reachable ids is matched (and with
the empty string not a patch key, which id-less elements are looked up
under) is returned structurally unchanged whenever the call succeeds;
(ii) a matched childless element receives exactly the shallow merge
`dictUpdate` of the patch into its props; (iii) the shallow merge leaves
every prop key absent from the patch untouched. -/
theorem C3_patch_isolation_amended :
    (∀ (ps : PatchSet) (v y : PyVal), (patchFor ps "").isNone = true →
      nmVal ps v = true → update_component_state v ps = Except.ok y →
      y = v)
    ∧ (∀ (ps : PatchSet) (s : String)
        (p d : List (String × PyVal)),
        hasKeyF d "children" = false →
        dictGet d "id" = some (.vstr s) →
        patchFor ps (normalizeId s) = some p →
        update_component_state (.vlist [.vdict [("props", .vdict d)]]) ps =
          Except.ok (.vlist [.vdict [("props",
            .vdict (dictUpdate d p))]]))
    ∧ (∀ (d p : List (String × PyVal)) (k : String),
        p.all (fun q => !(q.1 == k)) = true →
        dictGet (dictUpdate d p) k = dictGet d k) :=
  ⟨fun ps v y h0 hm he => isolation_nomatch ps v y h0 hm he,
   fun ps s p d hc hid hp => isolation_merge ps s p d hc hid hp,
   fun d p k hall => dictGet_dictUpdate_notmem p d k hall⟩

theorem C3_patch_isolation_amended_witness :
    ((patchFor [("z", [("q", PyVal.vnull)])] "").isNone = true
      ∧ nmVal [("z", [("q", PyVal.vnull)])]
          (PyVal.vlist [PyVal.vdict [("props",
            PyVal.vdict [("id", PyVal.vstr "w"), ("k", PyVal.vstr "1")])]])
          = true
      ∧ update_component_state
          (PyVal.vlist [PyVal.vdict [("props",
            PyVal.vdict [("id", PyVal.vstr "w"), ("k", PyVal.vstr "1")])]])
          [("z", [("q", PyVal.vnull)])] =
          Except.ok (PyVal.vlist [PyVal.vdict [("props",
            PyVal.vdict [("id", PyVal.vstr "w"), ("k", PyVal.vstr "1")])]])
      ∧ (PyVal.vlist [PyVal.vdict [("props",
          PyVal.vdict [("id", PyVal.vstr "w"), ("k", PyVal.vstr "1")])]])
        = (PyVal.vlist [PyVal.vdict [("props",
          PyVal.vdict [("id", PyVal.vstr "w"), ("k", PyVal.vstr "1")])]]))
    ∧ (hasKeyF [("id", PyVal.vstr "a-b"), ("z", PyVal.vnull)] "children"
        = false
      ∧ dictGet [("id", PyVal.vstr "a-b"), ("z", PyVal.vnull)] "id"
        = some (PyVal.vstr "a-b")
      ∧ patchFor [("a_b", [("z", PyVal.vstr "n")])] (normalizeId "a-b")
        = some [("z", PyVal.vstr "n")]
      ∧ update_component_state
          (PyVal.vlist [PyVal.vdict [("props", PyVal.vdict
            [("id", PyVal.vstr "a-b"), ("z", PyVal.vnull)])]])
          [("a_b", [("z", PyVal.vstr "n")])] =
          Except.ok (PyVal.vlist [PyVal.vdict [("props", PyVal.vdict
            (dictUpdate [("id", PyVal.vstr "a-b"), ("z", PyVal.vnull)]
              [("z", PyVal.vstr "n")]))]]))
    ∧ (([("y", PyVal.vstr "2")] : List (String × PyVal)).all
        (fun q => !(q.1 == "x")) = true
      ∧ dictGet (dictUpdate [("x", PyVal.vnull)] [("y", PyVal.vstr "2")])
          "x" = dictGet [("x", PyVal.vnull)] "x") :=
  ⟨⟨rfl, rfl, rfl,
    C3_patch_isolation_amended.1 [("z", [("q", PyVal.vnull)])]
      (PyVal.vlist [PyVal.vdict [("props",
        PyVal.vdict [("id", PyVal.vstr "w"), ("k", PyVal.vstr "1")])]])
      (PyVal.vlist [PyVal.vdict [("props",
        PyVal.vdict [("id", PyVal.vstr "w"), ("k", PyVal.vstr "1")])]])
      rfl rfl rfl⟩,
   ⟨rfl, rfl, rfl,
    C3_patch_isolation_amended.2.1 [("a_b", [("z", PyVal.vstr "n")])]
      "a-b" [("z", PyVal.vstr "n")]
      [("id", PyVal.vstr "a-b"), ("z", PyVal.vnull)] rfl rfl rfl⟩,
   ⟨rfl,
    C3_patch_isolation_amended.2.2 [("x", PyVal.vnull)]
      [("y", PyVal.vstr "2")] "x" rfl⟩⟩

/-- `C5`: a truthy dict-shaped `children` that matches neither recognized
dual-shape pattern (no `props` key, no `children` key) makes
`update_component_state` fail with the `MalformedLayout` error
(`ValueError("Not Expected App Structure")`), which propagates to the
caller; for either recognized shape the traversal recurses into the
corresponding substructure without raising (witnessed by the patch being
applied inside it). -/
theorem C5_dual_shape_children :
    (∀ (ps : PatchSet) (cd : List (String × PyVal)),
      ps ≠ [] → cd ≠ [] →
      hasKeyF cd "props" = false → hasKeyF cd "children" = false →
      update_component_state
        (.vlist [.vdict [("props",
          .vdict [("children", .vdict cd)])]]) ps =
        Except.error UErr.malformed)
    ∧ update_component_state
        (.vlist [.vdict [("props", .vdict [("children", .vdict
          [("props", .vdict [("children", .vstr "x"),
            ("id", .vstr "tgt")])])])]])
        [("tgt", [("mark", .vstr "hit")])] =
        Except.ok (.vlist [.vdict [("props", .vdict [("children", .vdict
          [("props", .vdict [("children", .vstr "x"),
            ("id", .vstr "tgt"), ("mark", .vstr "hit")])])])]])
    ∧ update_component_state
        (.vlist [.vdict [("props", .vdict [("children", .vdict
          [("children", .vlist [.vdict [("props", .vdict
            [("id", .vstr "tgt2"), ("y", .vstr "0")])]])])])]])
        [("tgt2", [("y", .vstr "1")])] =
        Except.ok (.vlist [.vdict [("props", .vdict [("children", .vdict
          [("children", .vlist [.vdict [("props", .vdict
            [("id", .vstr "tgt2"), ("y", .vstr "1")])]])])])]]) := by
  refine ⟨?_, rfl, rfl⟩
  intro ps cd hps hcd hp hc
  have hne : ps.isEmpty = false := by
    cases ps with
    | nil => exact absurd rfl hps
    | cons a t => rfl
  have hcde : cd.isEmpty = false := by
    cases cd with
    | nil => exact absurd rfl hcd
    | cons a t => rfl
  have hdg : dictGet cd "props" = none := hasKeyF_false_dictGet cd "props" hp
  have hpy : pyIn "children" (PyVal.vstr "") = Except.ok false := rfl
  have hp' : cd.any (fun p => p.1 == "props") = false := hp
  have hc' : cd.any (fun p => p.1 == "children") = false := hc
  rw [update_component_state, hne]
  simp only [Bool.false_eq_true, if_false]
  simp [updVal, updList, updItem, updItemFields, updPropsVal,
    updPropsFields, updChildrenVal, hcde, hdg, hp, hc, hp', hc', hpy,
    hasKeyF]

theorem C5_dual_shape_children_witness :
    ([("q", [("r", PyVal.vnull)])] : PatchSet) ≠ []
    ∧ ([("zz", PyVal.vint 1)] : List (String × PyVal)) ≠ []
    ∧ hasKeyF [("zz", PyVal.vint 1)] "props" = false
    ∧ hasKeyF [("zz", PyVal.vint 1)] "children" = false
    ∧ update_component_state
        (.vlist [.vdict [("props",
          .vdict [("children", .vdict [("zz", PyVal.vint 1)])])]])
        [("q", [("r", PyVal.vnull)])] = Except.error UErr.malformed :=
  ⟨by simp, by simp, rfl, rfl,
   C5_dual_shape_children.1 [("q", [("r", PyVal.vnull)])]
     [("zz", PyVal.vint 1)] (by simp) (by simp) rfl rfl⟩

set_option maxRecDepth 20000 in
/-- `C1` counterexample: with a configured pre-save patch
(`update_components`), the save pipeline hashes the *pre-patch* state and
then stores the *patched* state under that fingerprint, so the fingerprint
is not derived from the serialized state that is written to the store: the
stored state differs from the hashed one and hashes differently. -/
theorem C1_counterexample :
    DashShare.save_callback [("m", [("is_open", PyVal.vbool false)])] none
      (some 1)
      (.vlist [.vdict [("props", .vdict [("id", .vstr "m"),
        ("is_open", .vbool true)])]])
      false "http://h/p" { files := [] } =
      Except.ok ({ files := [(DashShare.encode
          (.vlist [.vdict [("props", .vdict [("id", .vstr "m"),
            ("is_open", .vbool true)])]]) 8,
        .vlist [.vdict [("props", .vdict [("id", .vstr "m"),
          ("is_open", .vbool false)])]])] },
        (some 1, true, "http://h/?state=" ++ DashShare.encode
          (.vlist [.vdict [("props", .vdict [("id", .vstr "m"),
            ("is_open", .vbool true)])]]) 8)) ∧
    (PyVal.vlist [.vdict [("props", .vdict [("id", .vstr "m"),
      ("is_open", .vbool false)])]]) ≠
      (PyVal.vlist [.vdict [("props", .vdict [("id", .vstr "m"),
        ("is_open", .vbool true)])]]) ∧
    DashShare.encode (.vlist [.vdict [("props", .vdict [("id", .vstr "m"),
        ("is_open", .vbool false)])]]) 8 ≠
      DashShare.encode (.vlist [.vdict [("props", .vdict [("id", .vstr "m"),
        ("is_open", .vbool true)])]]) 8 := by
  refine ⟨rfl, ?_, by decide⟩
  intro h
  exact absurd (congrArg jsonVal h) (by decide)

/-- `C1` (amended): on a save event the pipeline first computes the State
Codec hash of the *current* (pre-patch) layout state; the Persistence
Adapter then applies the optional pre-save Tree Rewriter patch and
persists the patched state under that hash, and the Share Controller's
link carries the same hash.  The fingerprint is therefore derived from the
pre-patch state; only when there is no pre-save patch is it derived from
exactly the state written to the store. -/
theorem C1_save_pipeline_amended (uc : PatchSet) (onServer : Option String)
    (n : Int) (state state' : PyVal) (isOpen : Bool) (url : String)
    (store : FileStore) (hn : 0 < n)
    (hs : storeGet store (DashShare.encode state 8) = none)
    (hu : update_component_state state uc = Except.ok state') :
    DashShare.save_callback uc onServer (some n) state isOpen url store =
      Except.ok ({ files := store.files
          ++ [(DashShare.encode state 8, state')] },
        (some n, !isOpen, DashShare.get_url_base onServer url
          ++ "/?state=" ++ DashShare.encode state 8)) := by
  rw [DashShare.save_callback]
  rw [fileShare_save_write uc n state state' (DashShare.encode state 8)
    store hn hs hu]
  simp [truthyOptInt_pos hn]

set_option maxRecDepth 20000 in
theorem C1_save_pipeline_amended_witness :
    (0 : Int) < 1
    ∧ storeGet { files := [] } (DashShare.encode
        (.vlist [.vdict [("props", .vdict [("id", .vstr "m"),
          ("is_open", .vbool true)])]]) 8) = none
    ∧ update_component_state
        (.vlist [.vdict [("props", .vdict [("id", .vstr "m"),
          ("is_open", .vbool true)])]])
        [("m", [("is_open", PyVal.vbool false)])] =
        Except.ok (.vlist [.vdict [("props", .vdict [("id", .vstr "m"),
          ("is_open", .vbool false)])]])
    ∧ DashShare.save_callback [("m", [("is_open", PyVal.vbool false)])]
        none (some 1)
        (.vlist [.vdict [("props", .vdict [("id", .vstr "m"),
          ("is_open", .vbool true)])]])
        false "http://h/p" { files := [] } =
        Except.ok ({ files := [(DashShare.encode
            (.vlist [.vdict [("props", .vdict [("id", .vstr "m"),
              ("is_open", .vbool true)])]]) 8,
          .vlist [.vdict [("props", .vdict [("id", .vstr "m"),
            ("is_open", .vbool false)])]])] },
          (some 1, true, DashShare.get_url_base none "http://h/p"
            ++ "/?state=" ++ DashShare.encode
              (.vlist [.vdict [("props", .vdict [("id", .vstr "m"),
                ("is_open", .vbool true)])]]) 8)) :=
  ⟨by decide, rfl, rfl,
   C1_save_pipeline_amended [("m", [("is_open", PyVal.vbool false)])]
     none 1
     (.vlist [.vdict [("props", .vdict [("id", .vstr "m"),
       ("is_open", .vbool true)])]])
     (.vlist [.vdict [("props", .vdict [("id", .vstr "m"),
       ("is_open", .vbool false)])]])
     false "http://h/p" { files := [] } (by decide) rfl rfl⟩
